import Mathlib

/-!
Shallow embedding of `src/ecs.rs` (ECS image discovery pipeline).

The remote ECS control plane is modelled as a record of pure functions
(`EcsClient`), each returning `Except String` (mirroring `anyhow::Result`).
`async`/`await` sequencing becomes ordinary sequencing; `join_all` over a
list of futures becomes `List.map` followed by the same
`collect::<Result<Vec<_>>>` fold the Rust code performs.  The two unbounded
Rust `loop`s are embedded as fuel-indexed recursions returning
`Option (Except ...)`: outer `none` means the fuel ran out before the
cursor chain ended, so "the Rust loop terminates" is "some fuel yields
`some` result".  The `HashMap` result is an association list whose insert
replaces an existing key, matching `HashMap::insert`.
-/

namespace EcsSpec

/-- Mirrors `rusoto_ecs::ContainerDefinition` (only the `image` field is read). -/
structure ContainerDefinition where
  image : Option String
  deriving DecidableEq

/-- Mirrors `rusoto_ecs::TaskDefinition` (only the fields the code reads). -/
structure TaskDefinition where
  task_definition_arn : Option String
  container_definitions : Option (List ContainerDefinition)
  deriving DecidableEq

/-- Mirrors `rusoto_ecs::DescribeTaskDefinitionResponse`. -/
structure DescribeTaskDefinitionResponse where
  task_definition : Option TaskDefinition
  deriving DecidableEq

/-- Mirrors `rusoto_ecs::Service` (only the fields the code reads). -/
structure ContainerService where
  service_name : Option String
  task_definition : Option String
  deriving DecidableEq

/-- Mirrors `rusoto_ecs::DescribeServicesResponse` (only `services` is read). -/
structure DescribeServicesResponse where
  services : Option (List ContainerService)
  deriving DecidableEq

/-- Mirrors `rusoto_ecs::ListServicesResponse`. -/
structure ListServicesResponse where
  service_arns : Option (List String)
  next_token : Option String
  deriving DecidableEq

/-- Mirrors `rusoto_ecs::ListClustersResponse`. -/
structure ListClustersResponse where
  cluster_arns : Option (List String)
  next_token : Option String
  deriving DecidableEq

/-- The result record `Image` from `src/ecs.rs`. -/
structure Image where
  image_name : String
  task_definition_name : String
  service_name : String
  deriving DecidableEq

/-- The remote control plane: the four `EcsClient` calls the code issues,
each a pure function returning `Except String` in place of the fallible
async call.  `describe_services` receives the `cluster` field and the
`services` field of the Rust request; `list_services` receives `cluster`
and `next_token`; `list_clusters` receives `next_token`. -/
structure EcsClient where
  describe_task_definition : String → Except String DescribeTaskDefinitionResponse
  describe_services : Option String → List String → Except String DescribeServicesResponse
  list_services : Option String → Option String → Except String ListServicesResponse
  list_clusters : Option String → Except String ListClustersResponse

instance {ε α : Type} [DecidableEq ε] [DecidableEq α] : DecidableEq (Except ε α) := by
  intro a b
  cases a <;> cases b
  case error.error e e' =>
    exact if h : e = e' then .isTrue (by rw [h]) else .isFalse (by simp [h])
  case error.ok e a' => exact .isFalse (by simp)
  case ok.error a' e => exact .isFalse (by simp)
  case ok.ok a' b' =>
    exact if h : a' = b' then .isTrue (by rw [h]) else .isFalse (by simp [h])

/-- `get_image_of_task_definition` from `src/ecs.rs`: describe the task
definition, then chain `and_then`/`map` over the optional body, ARN,
container definitions (taking `last()`), and image. -/
def get_image_of_task_definition (ecs_client : EcsClient)
    (task_definition service_name : String) : Except String (Option Image) :=
  match ecs_client.describe_task_definition task_definition with
  | .error e => .error e
  | .ok task_definition_res =>
    .ok (task_definition_res.task_definition.bind fun td =>
      (td.task_definition_arn.bind fun td_arn =>
        td.container_definitions.bind fun cds =>
          cds.getLast?.map fun cd => (td_arn, cd)).bind fun p =>
        p.2.image.map fun i =>
          { image_name := i, task_definition_name := p.1, service_name := service_name })

/-- Rust's `collect::<Result<Vec<_>, _>>`: succeed with all values, or
return the first error in list order. -/
def collectResults {ε α : Type} : List (Except ε α) → Except ε (List α)
  | [] => .ok []
  | r :: rs =>
    match r with
    | .error e => .error e
    | .ok a =>
      match collectResults rs with
      | .error e => .error e
      | .ok xs => .ok (a :: xs)

/-- The `(task_definition, service_name)` pairs built in
`get_images_of_services`: one per service carrying both fields, services
missing either field skipped (`filter_map` over `and_then`/`map`). -/
def formed_pairs (services : List ContainerService) : List (String × String) :=
  services.filterMap fun service =>
    service.task_definition.bind fun td =>
      service.service_name.map fun sn => (td, sn)

/-- `get_images_of_services` from `src/ecs.rs`: batch-describe the
services, form the pairs, resolve each (the `join_all` of pure calls is a
`map`), collect results fail-fast, and keep the `Some` images. -/
def get_images_of_services (ecs_client : EcsClient)
    (service_arns : List String) (cluster_name : String) : Except String (List Image) :=
  match ecs_client.describe_services (some cluster_name) service_arns with
  | .error e => .error e
  | .ok describe_services_res =>
    match describe_services_res.services with
    | none => .ok []
    | some services =>
      let task_definitions := formed_pairs services
      let get_images_results :=
        task_definitions.map fun p => get_image_of_task_definition ecs_client p.1 p.2
      match collectResults get_images_results with
      | .error e => .error e
      | .ok image_opts => .ok (image_opts.filterMap id)

/-- One iteration body of the `get_images_of_a_cluster` loop: the
`if let Some(service_arns) ... if !service_arns.is_empty()` guard around
the batch resolution; an absent or empty page contributes nothing and
issues no call. -/
def list_services_page_images (ecs_client : EcsClient) (cluster_name : String)
    (service_arns : Option (List String)) : Except String (List Image) :=
  match service_arns with
  | none => .ok []
  | some arns =>
    if arns.isEmpty then .ok []
    else get_images_of_services ecs_client arns cluster_name

/-- The pagination loop of `get_images_of_a_cluster`, fuel-indexed: each
iteration lists one page of services with the current token, resolves the
page, and either stops (absent `next_token`) or recurses on the returned
token.  `none` means the fuel ran out before the cursor chain ended. -/
def get_images_of_a_cluster_loop (ecs_client : EcsClient) (cluster_name : String) :
    Nat → Option String → Option (Except String (List Image))
  | 0, _ => none
  | fuel + 1, next_token =>
    match ecs_client.list_services (some cluster_name) next_token with
    | .error e => some (.error e)
    | .ok list_services_res =>
      match list_services_page_images ecs_client cluster_name list_services_res.service_arns with
      | .error e => some (.error e)
      | .ok got_images =>
        match list_services_res.next_token with
        | none => some (.ok got_images)
        | some tok =>
          (get_images_of_a_cluster_loop ecs_client cluster_name fuel (some tok)).map
            (fun r => r.map fun rest => got_images ++ rest)

/-- `get_images_of_a_cluster` from `src/ecs.rs`: run the pagination loop
from an absent token and pair the accumulated images with the cluster
name. -/
def get_images_of_a_cluster (ecs_client : EcsClient) (cluster_name : String)
    (fuel : Nat) : Option (Except String (String × List Image)) :=
  (get_images_of_a_cluster_loop ecs_client cluster_name fuel none).map
    (fun r => r.map fun imgs => (cluster_name, imgs))

/-- The pagination loop of `get_clusters`, fuel-indexed: each iteration
lists one page of clusters, appends `cluster_arns` (absent means the empty
page), and stops when `next_token` is absent. -/
def get_clusters_loop (ecs_client : EcsClient) :
    Nat → Option String → Option (Except String (List String))
  | 0, _ => none
  | fuel + 1, next_token =>
    match ecs_client.list_clusters next_token with
    | .error e => some (.error e)
    | .ok list_clusters_res =>
      let page := list_clusters_res.cluster_arns.getD []
      match list_clusters_res.next_token with
      | none => some (.ok page)
      | some tok =>
        (get_clusters_loop ecs_client fuel (some tok)).map
          (fun r => r.map fun rest => page ++ rest)

/-- `get_clusters` from `src/ecs.rs`: the cluster listing loop started
with an absent token. -/
def get_clusters (ecs_client : EcsClient) (fuel : Nat) :
    Option (Except String (List String)) :=
  get_clusters_loop ecs_client fuel none

/-- Rust's `str::contains` for a string pattern: case-sensitive substring
test, expressed over the character lists. -/
def contains_substring (hay needle : String) : Bool :=
  (List.range (hay.data.length + 1)).any fun i =>
    needle.data.isPrefixOf (hay.data.drop i)

/-- The inclusion filter of `get_images_of_clusters`: keep a cluster when
`cluster_includes` is empty or `find` locates a filter string contained in
the cluster ARN. -/
def keep_cluster (cluster_includes : List String) (cluster_arn : String) : Bool :=
  cluster_includes.isEmpty ||
    (cluster_includes.find? fun ci => contains_substring cluster_arn ci).isSome

/-- `HashMap::insert` on the association-list model: replace the entry for
an existing key, else append. -/
def insert_assoc (k : String) (v : List Image) :
    List (String × List Image) → List (String × List Image)
  | [] => [(k, v)]
  | (k', v') :: rest =>
    if k' = k then (k, v) :: rest else (k', v') :: insert_assoc k v rest

/-- The final loop of `get_images_of_clusters`: walk the joined per-cluster
results in order, aborting at the first error (`?`), inserting each
`(cluster_name, images)` pair into the map. -/
def insert_all_cluster_results :
    List (Except String (String × List Image)) → List (String × List Image) →
      Except String (List (String × List Image))
  | [], acc => .ok acc
  | r :: rs, acc =>
    match r with
    | .error e => .error e
    | .ok p => insert_all_cluster_results rs (insert_assoc p.1 p.2 acc)

/-- Collects a list of fuel-limited results: `none` when any entry ran out
of fuel (the corresponding Rust futures never finish). -/
def sequence_options {α : Type} : List (Option α) → Option (List α)
  | [] => some []
  | o :: os => o.bind fun a => (sequence_options os).map fun rest => a :: rest

/-- `get_images_of_clusters` from `src/ecs.rs`: list clusters, filter by
`keep_cluster`, fan out `get_images_of_a_cluster` per kept cluster
(`join_all` of pure calls is a `map`), then fold the results into the map
fail-fast.  `cluster_fuel` bounds the cluster-listing loop and
`service_fuel` each per-cluster service-pagination loop. -/
def get_images_of_clusters (ecs_client : EcsClient) (cluster_includes : List String)
    (cluster_fuel : Nat) (service_fuel : Nat) :
    Option (Except String (List (String × List Image))) :=
  match get_clusters ecs_client cluster_fuel with
  | none => none
  | some (.error e) => some (.error e)
  | some (.ok clusters) =>
    let kept := clusters.filter fun cluster_arn => keep_cluster cluster_includes cluster_arn
    let results := kept.map fun cluster_arn =>
      get_images_of_a_cluster ecs_client cluster_arn service_fuel
    match sequence_options results with
    | none => none
    | some rs => some (insert_all_cluster_results rs [])

/-! ### Sample clients used by witnesses -/

/-- A client whose task-definition describe always yields one fixed
definition and whose other calls are unused. -/
def sample_td_client : EcsClient where
  describe_task_definition := fun _ =>
    .ok { task_definition := some
            ({ task_definition_arn := some "arn:aws:ecs:td/app:7",
               container_definitions := some
                 [{ image := some "sidecar:0.1" }, { image := some "app:1.2" }] }) }
  describe_services := fun _ _ => .error "unused"
  list_services := fun _ _ => .error "unused"
  list_clusters := fun _ => .error "unused"

/-- A client whose task-definition describe returns an empty body. -/
def sample_td_absent_client : EcsClient where
  describe_task_definition := fun _ => .ok { task_definition := none }
  describe_services := fun _ _ => .error "unused"
  list_services := fun _ _ => .error "unused"
  list_clusters := fun _ => .error "unused"

/-- A client whose batch describe carries no `services` field at all and
whose task-definition describe always fails: any task-definition lookup
issued against it would surface as an error. -/
def sample_no_services_client : EcsClient where
  describe_task_definition := fun _ => .error "describe_task_definition was called"
  describe_services := fun _ _ => .ok { services := none }
  list_services := fun _ _ => .error "unused"
  list_clusters := fun _ => .error "unused"

/-! ### C1 / C2 / C10 -/

/-- C1: when the describe response carries a body with a resolved ARN and
a non-empty container-definition list whose last entry has a (non-empty)
image, `get_image_of_task_definition` returns `Ok(Some(Image))` whose
`image_name` is that last container's image, `task_definition_name` is the
ARN resolved from the response (not the queried identifier), and
`service_name` is the service name passed in. -/
theorem get_image_of_task_definition_some (ecs_client : EcsClient)
    (tdid sn : String) (res : DescribeTaskDefinitionResponse)
    (td : TaskDefinition) (td_arn : String) (cds : List ContainerDefinition)
    (cd : ContainerDefinition) (i : String)
    (hcall : ecs_client.describe_task_definition tdid = .ok res)
    (hbody : res.task_definition = some td)
    (harn : td.task_definition_arn = some td_arn)
    (hcds : td.container_definitions = some cds)
    (hlast : cds.getLast? = some cd)
    (himg : cd.image = some i)
    (hne : i ≠ "") :
    get_image_of_task_definition ecs_client tdid sn =
      .ok (some { image_name := i, task_definition_name := td_arn, service_name := sn }) := by
  simp [get_image_of_task_definition, hcall, hbody, harn, hcds, hlast, himg]

/-- Witness for C1 on a concrete client: the last of two containers wins,
the ARN comes from the response. -/
theorem get_image_of_task_definition_some_witness :
    get_image_of_task_definition sample_td_client "app:7" "svc1" =
      .ok (some { image_name := "app:1.2",
                  task_definition_name := "arn:aws:ecs:td/app:7",
                  service_name := "svc1" }) :=
  get_image_of_task_definition_some sample_td_client "app:7" "svc1"
    { task_definition := some
        ({ task_definition_arn := some "arn:aws:ecs:td/app:7",
           container_definitions := some
             [{ image := some "sidecar:0.1" }, { image := some "app:1.2" }] }) }
    { task_definition_arn := some "arn:aws:ecs:td/app:7",
      container_definitions := some
        [{ image := some "sidecar:0.1" }, { image := some "app:1.2" }] }
    "arn:aws:ecs:td/app:7"
    [{ image := some "sidecar:0.1" }, { image := some "app:1.2" }]
    { image := some "app:1.2" } "app:1.2"
    rfl rfl rfl rfl rfl rfl (by decide)

/-- C2: when the describe response lacks a body, or the body lacks an ARN,
or lacks container definitions (or has an empty list), or the last
container has no image, `get_image_of_task_definition` returns `Ok(None)`
rather than an error. -/
theorem get_image_of_task_definition_none (ecs_client : EcsClient)
    (tdid sn : String) (res : DescribeTaskDefinitionResponse)
    (hcall : ecs_client.describe_task_definition tdid = .ok res)
    (habsent :
      res.task_definition = none ∨
      ∃ td, res.task_definition = some td ∧
        (td.task_definition_arn = none ∨
         td.container_definitions = none ∨
         td.container_definitions = some [] ∨
         ∃ cds cd, td.container_definitions = some cds ∧
           cds.getLast? = some cd ∧ cd.image = none)) :
    get_image_of_task_definition ecs_client tdid sn = .ok none := by
  rcases habsent with hnone | ⟨td, hbody, hcase⟩
  · simp [get_image_of_task_definition, hcall, hnone]
  · rcases hcase with harn | hcds | hcds | ⟨cds, cd, hcds, hlast, himg⟩
    · simp [get_image_of_task_definition, hcall, hbody, harn]
    · simp [get_image_of_task_definition, hcall, hbody, hcds]
    · simp [get_image_of_task_definition, hcall, hbody, hcds]
    · cases harn : td.task_definition_arn with
      | none => simp [get_image_of_task_definition, hcall, hbody, harn]
      | some td_arn =>
        simp [get_image_of_task_definition, hcall, hbody, harn, hcds, hlast, himg]

/-- Witness for C2 on a concrete client whose response has no body. -/
theorem get_image_of_task_definition_none_witness :
    get_image_of_task_definition sample_td_absent_client "app:7" "svc1" = .ok none :=
  get_image_of_task_definition_none sample_td_absent_client "app:7" "svc1"
    { task_definition := none } rfl (Or.inl rfl)

/-- C10: when the batch describe succeeds but its `services` field is
entirely absent, `get_images_of_services` returns `Ok([])`.  The statement
holds for every client with such a response — in particular for clients
whose `describe_task_definition` always errors — so no task-definition
lookup can have been performed. -/
theorem get_images_of_services_absent_field (ecs_client : EcsClient)
    (service_arns : List String) (cluster_name : String)
    (res : DescribeServicesResponse)
    (hcall : ecs_client.describe_services (some cluster_name) service_arns = .ok res)
    (hnone : res.services = none) :
    get_images_of_services ecs_client service_arns cluster_name = .ok [] := by
  simp [get_images_of_services, hcall, hnone]

/-- Witness for C10: the client's task-definition describe always errors,
yet the batch resolution succeeds with the empty list. -/
theorem get_images_of_services_absent_field_witness :
    get_images_of_services sample_no_services_client ["svcA", "svcB"] "cl1" = .ok [] :=
  get_images_of_services_absent_field sample_no_services_client ["svcA", "svcB"] "cl1"
    { services := none } rfl rfl

/-! ### Helper lemmas on `collectResults` and `formed_pairs` -/

theorem collectResults_map_ok {ε α β : Type} (l : List β)
    (g : β → Except ε α) (h : β → α) (H : ∀ x ∈ l, g x = .ok (h x)) :
    collectResults (l.map g) = .ok (l.map h) := by
  induction l with
  | nil => rfl
  | cons x xs ih =>
    have hx := H x (by simp)
    have ihs := ih fun y hy => H y (by simp [hy])
    simp only [List.map_cons, collectResults, hx, ihs]

theorem mem_formed_pairs (services : List ContainerService) (td sn : String) :
    (td, sn) ∈ formed_pairs services ↔
      ∃ service ∈ services,
        service.task_definition = some td ∧ service.service_name = some sn := by
  simp only [formed_pairs, List.mem_filterMap]
  constructor
  · rintro ⟨service, hmem, heq⟩
    refine ⟨service, hmem, ?_⟩
    cases htd : service.task_definition with
    | none => simp [htd] at heq
    | some td' =>
      cases hsn : service.service_name with
      | none => simp [htd, hsn] at heq
      | some sn' =>
        simp only [htd, hsn, Option.bind_some, Option.map_some] at heq
        cases heq
        exact ⟨rfl, rfl⟩
  · rintro ⟨service, hmem, htd, hsn⟩
    exact ⟨service, hmem, by simp [htd, hsn]⟩

/-! ### C7 -/

/-- C7: for a successful batch describe that returns a `services` list,
`get_images_of_services` resolves exactly the `(task_definition,
service_name)` pairs formed from the services carrying both fields (a pair
is formed iff such a service exists — services missing either field are
skipped without error), and returns exactly the `Some` resolutions with
the `None` ones discarded: the result is the `filterMap` of the resolution
function over the formed pairs. -/
theorem get_images_of_services_pairs (ecs_client : EcsClient)
    (service_arns : List String) (cluster_name : String)
    (res : DescribeServicesResponse) (services : List ContainerService)
    (f : String × String → Option Image)
    (hcall : ecs_client.describe_services (some cluster_name) service_arns = .ok res)
    (hsvcs : res.services = some services)
    (hres : ∀ p ∈ formed_pairs services,
      get_image_of_task_definition ecs_client p.1 p.2 = .ok (f p)) :
    get_images_of_services ecs_client service_arns cluster_name =
        .ok ((formed_pairs services).filterMap f) ∧
      ∀ td sn, (td, sn) ∈ formed_pairs services ↔
        ∃ service ∈ services,
          service.task_definition = some td ∧ service.service_name = some sn := by
  refine ⟨?_, fun td sn => mem_formed_pairs services td sn⟩
  have hcollect :
      collectResults ((formed_pairs services).map fun p =>
          get_image_of_task_definition ecs_client p.1 p.2) =
        .ok ((formed_pairs services).map f) :=
    collectResults_map_ok (formed_pairs services) _ f hres
  simp only [get_images_of_services, hcall, hsvcs, hcollect, List.filterMap_map,
    Function.comp_def, id]

/-- A client for the C7 witness: two resolvable services (one of which
resolves to `None` for lack of an image) and one service missing its
service name. -/
def sample_batch_client : EcsClient where
  describe_task_definition := fun td =>
    if td = "td1" then
      .ok { task_definition := some
              ({ task_definition_arn := some "arn:td1",
                 container_definitions := some [{ image := some "app:1.2" }] }) }
    else
      .ok { task_definition := some
              ({ task_definition_arn := some "arn:td2",
                 container_definitions := some [{ image := none }] }) }
  describe_services := fun _ _ =>
    .ok { services := some
            [{ service_name := some "svc1", task_definition := some "td1" },
             { service_name := none, task_definition := some "td-skip" },
             { service_name := some "svc2", task_definition := some "td2" }] }
  list_services := fun _ _ => .error "unused"
  list_clusters := fun _ => .error "unused"

/-- Witness for C7 on a concrete batch: the no-name service forms no pair,
the `None` resolution is dropped, the `Some` resolution is returned. -/
theorem get_images_of_services_pairs_witness :
    get_images_of_services sample_batch_client ["svc1", "svcX", "svc2"] "cl1" =
        .ok [{ image_name := "app:1.2", task_definition_name := "arn:td1",
               service_name := "svc1" }] ∧
      ∀ td sn,
        (td, sn) ∈ formed_pairs
            [{ service_name := some "svc1", task_definition := some "td1" },
             { service_name := none, task_definition := some "td-skip" },
             { service_name := some "svc2", task_definition := some "td2" }] ↔
          ∃ service ∈
              [({ service_name := some "svc1", task_definition := some "td1" } :
                  ContainerService),
               { service_name := none, task_definition := some "td-skip" },
               { service_name := some "svc2", task_definition := some "td2" }],
            service.task_definition = some td ∧ service.service_name = some sn :=
  get_images_of_services_pairs sample_batch_client ["svc1", "svcX", "svc2"] "cl1"
    { services := some
        [{ service_name := some "svc1", task_definition := some "td1" },
         { service_name := none, task_definition := some "td-skip" },
         { service_name := some "svc2", task_definition := some "td2" }] }
    [{ service_name := some "svc1", task_definition := some "td1" },
     { service_name := none, task_definition := some "td-skip" },
     { service_name := some "svc2", task_definition := some "td2" }]
    (fun p =>
      if p.1 = "td1" then
        some { image_name := "app:1.2", task_definition_name := "arn:td1",
               service_name := p.2 }
      else none)
    rfl rfl
    (by
      intro p hp
      have hl : formed_pairs
          [{ service_name := some "svc1", task_definition := some "td1" },
           { service_name := none, task_definition := some "td-skip" },
           { service_name := some "svc2", task_definition := some "td2" }] =
          [("td1", "svc1"), ("td2", "svc2")] := rfl
      rw [hl] at hp
      simp only [List.mem_cons, List.not_mem_nil, or_false] at hp
      rcases hp with h | h <;> subst h <;> rfl)

/-! ### Substring semantics and map-key helpers -/

theorem contains_substring_iff (hay needle : String) :
    contains_substring hay needle = true ↔ needle.data <:+: hay.data := by
  simp only [contains_substring, List.any_eq_true, List.mem_range,
    List.isPrefixOf_iff_prefix]
  constructor
  · rintro ⟨i, _, hpre⟩
    exact hpre.isInfix.trans (List.drop_suffix i hay.data).isInfix
  · rintro ⟨s, t, hst⟩
    refine ⟨s.length, ?_, ?_⟩
    · have : hay.data.length = s.length + (needle.data.length + t.length) := by
        rw [← hst]; simp [List.length_append]
      omega
    · refine ⟨t, ?_⟩
      have : hay.data = s ++ (needle.data ++ t) := by
        rw [← hst]; simp [List.append_assoc]
      rw [this, List.drop_left]

theorem get_images_of_a_cluster_fst (ecs_client : EcsClient) (cluster_name : String)
    (fuel : Nat) (p : String × List Image)
    (h : get_images_of_a_cluster ecs_client cluster_name fuel = some (.ok p)) :
    p.1 = cluster_name := by
  unfold get_images_of_a_cluster at h
  cases hloop : get_images_of_a_cluster_loop ecs_client cluster_name fuel none with
  | none => rw [hloop] at h; simp at h
  | some r =>
    rw [hloop] at h
    cases r with
    | error e => simp [Except.map] at h
    | ok imgs =>
      simp only [Option.map_some, Except.map, Option.some.injEq] at h
      cases h
      rfl

theorem insert_assoc_mem (k : String) (v : List Image)
    (l : List (String × List Image)) (p : String × List Image)
    (h : p ∈ insert_assoc k v l) : p = (k, v) ∨ p ∈ l := by
  induction l with
  | nil =>
    simp only [insert_assoc, List.mem_singleton] at h
    exact Or.inl h
  | cons q rest ih =>
    obtain ⟨k', v'⟩ := q
    simp only [insert_assoc] at h
    by_cases hk : k' = k
    · simp only [if_pos hk, List.mem_cons] at h
      rcases h with h | h
      · exact Or.inl h
      · exact Or.inr (List.mem_cons_of_mem _ h)
    · simp only [if_neg hk, List.mem_cons] at h
      rcases h with h | h
      · exact Or.inr (by simp [h])
      · rcases ih h with h' | h'
        · exact Or.inl h'
        · exact Or.inr (List.mem_cons_of_mem _ h')

theorem insert_all_cluster_results_mem
    (rs : List (Except String (String × List Image)))
    (acc m : List (String × List Image))
    (hall : insert_all_cluster_results rs acc = .ok m)
    (p : String × List Image) (hp : p ∈ m) :
    (Except.ok p) ∈ rs ∨ p ∈ acc := by
  induction rs generalizing acc with
  | nil =>
    simp only [insert_all_cluster_results, Except.ok.injEq] at hall
    subst hall
    exact Or.inr hp
  | cons r rest ih =>
    cases r with
    | error e => simp [insert_all_cluster_results] at hall
    | ok q =>
      simp only [insert_all_cluster_results] at hall
      rcases ih _ hall with h | h
      · exact Or.inl (List.mem_cons_of_mem _ h)
      · rcases insert_assoc_mem q.1 q.2 acc p h with h' | h'
        · exact Or.inl (by simp [h'])
        · exact Or.inr h'

theorem sequence_options_mem {α : Type} (l : List (Option α)) (l' : List α)
    (h : sequence_options l = some l') (a : α) (ha : a ∈ l') : some a ∈ l := by
  induction l generalizing l' with
  | nil =>
    simp only [sequence_options, Option.some.injEq] at h
    subst h
    cases ha
  | cons o os ih =>
    cases o with
    | none => simp [sequence_options] at h
    | some a₀ =>
      simp only [sequence_options, Option.some_bind] at h
      cases hrest : sequence_options os with
      | none => rw [hrest] at h; simp at h
      | some rest' =>
        rw [hrest] at h
        simp only [Option.map_some', Option.some.injEq] at h
        subst h
        rcases List.mem_cons.mp ha with h' | h'
        · subst h'; exact List.mem_cons_self _ _
        · exact List.mem_cons_of_mem _ (ih rest' hrest h')

/-! ### C4 -/

/-- C4: the inclusion filter keeps a cluster exactly when the filter list
is empty or some filter string is a case-sensitive substring of the
cluster identifier, and every key of a successfully returned mapping
passes the filter (no cluster failing every filter appears). -/
theorem keep_cluster_spec (cluster_includes : List String) (cluster_arn : String)
    (ecs_client : EcsClient) (cluster_fuel service_fuel : Nat)
    (m : List (String × List Image))
    (hrun : get_images_of_clusters ecs_client cluster_includes cluster_fuel service_fuel =
      some (.ok m)) :
    (keep_cluster cluster_includes cluster_arn = true ↔
        cluster_includes = [] ∨
        ∃ ci ∈ cluster_includes, ci.data <:+: cluster_arn.data) ∧
    ∀ p ∈ m, keep_cluster cluster_includes p.1 = true := by
  constructor
  · simp only [keep_cluster, Bool.or_eq_true, List.isEmpty_iff, List.find?_isSome]
    constructor
    · rintro (h | ⟨ci, hmem, hcs⟩)
      · exact Or.inl h
      · exact Or.inr ⟨ci, hmem, (contains_substring_iff cluster_arn ci).mp hcs⟩
    · rintro (h | ⟨ci, hmem, hinf⟩)
      · exact Or.inl h
      · exact Or.inr ⟨ci, hmem, (contains_substring_iff cluster_arn ci).mpr hinf⟩
  · intro p hp
    cases hcl : get_clusters ecs_client cluster_fuel with
    | none => simp [get_images_of_clusters, hcl] at hrun
    | some r =>
      cases r with
      | error e => simp [get_images_of_clusters, hcl] at hrun
      | ok clusters =>
        simp only [get_images_of_clusters, hcl] at hrun
        cases hseq : sequence_options
            ((clusters.filter fun cluster_arn =>
                keep_cluster cluster_includes cluster_arn).map fun cluster_arn =>
              get_images_of_a_cluster ecs_client cluster_arn service_fuel) with
        | none => rw [hseq] at hrun; simp at hrun
        | some rs =>
          rw [hseq] at hrun
          simp only [Option.some.injEq] at hrun
          rcases insert_all_cluster_results_mem rs [] m hrun p hp with hmem | hmem
          · have hsome := sequence_options_mem _ rs hseq _ hmem
            rcases List.mem_map.mp hsome with ⟨c, hc, hcall⟩
            have hfst := get_images_of_a_cluster_fst ecs_client c service_fuel p hcall
            have hkeep := (List.mem_filter.mp hc).2
            rw [hfst]
            exact hkeep
          · cases hmem

/-- A small fleet for end-to-end witnesses: two clusters on one listing
page, one service in each cluster, resolving to one image. -/
def sample_fleet_client : EcsClient where
  describe_task_definition := fun _ =>
    .ok { task_definition := some
            ({ task_definition_arn := some "arn:td1",
               container_definitions := some [{ image := some "app:1.2" }] }) }
  describe_services := fun _ _ =>
    .ok { services := some
            [{ service_name := some "svc1", task_definition := some "td1" }] }
  list_services := fun _ _ =>
    .ok { service_arns := some ["svc1"], next_token := none }
  list_clusters := fun _ =>
    .ok { cluster_arns := some ["arn:cluster/prod-a", "arn:cluster/dev-b"],
          next_token := none }

/-- Witness for C4 on a concrete discovery run: the filter `["prod"]`
keeps `prod-a`, and every key of the resulting mapping passes it. -/
theorem keep_cluster_spec_witness :
    (keep_cluster ["prod"] "arn:cluster/prod-a" = true ↔
        ["prod"] = ([] : List String) ∨
        ∃ ci ∈ ["prod"], ci.data <:+: "arn:cluster/prod-a".data) ∧
    ∀ p ∈ [("arn:cluster/prod-a",
            [({ image_name := "app:1.2", task_definition_name := "arn:td1",
                service_name := "svc1" } : Image)])],
      keep_cluster ["prod"] p.1 = true :=
  keep_cluster_spec ["prod"] "arn:cluster/prod-a" sample_fleet_client 1 1
    [("arn:cluster/prod-a",
      [({ image_name := "app:1.2", task_definition_name := "arn:td1",
          service_name := "svc1" } : Image)])]
    (by decide)

/-! ### Key-preservation helpers for the result map -/

theorem mem_keys_insert_assoc_self (k : String) (v : List Image)
    (l : List (String × List Image)) :
    k ∈ (insert_assoc k v l).map Prod.fst := by
  induction l with
  | nil => simp [insert_assoc]
  | cons q rest ih =>
    obtain ⟨k', v'⟩ := q
    simp only [insert_assoc]
    by_cases hk : k' = k
    · simp [if_pos hk]
    · simp only [if_neg hk, List.map_cons, List.mem_cons]
      exact Or.inr ih

theorem mem_keys_insert_assoc_of (k k' : String) (v : List Image)
    (l : List (String × List Image)) (h : k' ∈ l.map Prod.fst) :
    k' ∈ (insert_assoc k v l).map Prod.fst := by
  induction l with
  | nil => cases h
  | cons q rest ih =>
    obtain ⟨k₀, v₀⟩ := q
    simp only [insert_assoc]
    by_cases hk : k₀ = k
    · subst hk
      simpa using h
    · simp only [List.map_cons, List.mem_cons] at h
      simp only [if_neg hk, List.map_cons, List.mem_cons]
      rcases h with h | h
      · exact Or.inl h
      · exact Or.inr (ih h)

theorem insert_all_cluster_results_keys_mono
    (rs : List (Except String (String × List Image)))
    (acc m : List (String × List Image)) (k : String)
    (hall : insert_all_cluster_results rs acc = .ok m)
    (hk : k ∈ acc.map Prod.fst) : k ∈ m.map Prod.fst := by
  induction rs generalizing acc with
  | nil =>
    simp only [insert_all_cluster_results, Except.ok.injEq] at hall
    subst hall
    exact hk
  | cons r rest ih =>
    cases r with
    | error e => simp [insert_all_cluster_results] at hall
    | ok q =>
      simp only [insert_all_cluster_results] at hall
      exact ih _ hall (mem_keys_insert_assoc_of q.1 k q.2 acc hk)

theorem insert_all_cluster_results_key_of_mem
    (rs : List (Except String (String × List Image)))
    (acc m : List (String × List Image)) (p : String × List Image)
    (hmem : Except.ok p ∈ rs)
    (hall : insert_all_cluster_results rs acc = .ok m) :
    p.1 ∈ m.map Prod.fst := by
  induction rs generalizing acc with
  | nil => cases hmem
  | cons r rest ih =>
    cases r with
    | error e => simp [insert_all_cluster_results] at hall
    | ok q =>
      simp only [insert_all_cluster_results] at hall
      rcases List.mem_cons.mp hmem with h | h
      · cases h
        exact insert_all_cluster_results_keys_mono rest _ m p.1 hall
          (mem_keys_insert_assoc_self p.1 p.2 acc)
      · exact ih _ h hall

theorem insert_all_cluster_results_no_error
    (rs : List (Except String (String × List Image)))
    (acc m : List (String × List Image))
    (hall : insert_all_cluster_results rs acc = .ok m)
    (r : Except String (String × List Image)) (hr : r ∈ rs) :
    ∃ p, r = .ok p := by
  induction rs generalizing acc with
  | nil => cases hr
  | cons r₀ rest ih =>
    cases r₀ with
    | error e => simp [insert_all_cluster_results] at hall
    | ok q =>
      simp only [insert_all_cluster_results] at hall
      rcases List.mem_cons.mp hr with h | h
      · exact ⟨q, h⟩
      · exact ih _ hall h

theorem sequence_options_mem_forward {α : Type} (l : List (Option α)) (l' : List α)
    (h : sequence_options l = some l') (a : α) (ha : some a ∈ l) : a ∈ l' := by
  induction l generalizing l' with
  | nil => cases ha
  | cons o os ih =>
    cases o with
    | none => simp [sequence_options] at h
    | some a₀ =>
      simp only [sequence_options, Option.some_bind] at h
      cases hrest : sequence_options os with
      | none => rw [hrest] at h; simp at h
      | some rest' =>
        rw [hrest] at h
        simp only [Option.map_some', Option.some.injEq] at h
        subst h
        rcases List.mem_cons.mp ha with h' | h'
        · cases h'
          exact List.mem_cons_self _ _
        · exact List.mem_cons_of_mem _ (ih rest' hrest h')

theorem sequence_options_no_none {α : Type} (l : List (Option α)) (l' : List α)
    (h : sequence_options l = some l') (o : Option α) (ho : o ∈ l) :
    ∃ a, o = some a := by
  induction l generalizing l' with
  | nil => cases ho
  | cons o₀ os ih =>
    cases o₀ with
    | none => simp [sequence_options] at h
    | some a₀ =>
      simp only [sequence_options, Option.some_bind] at h
      cases hrest : sequence_options os with
      | none => rw [hrest] at h; simp at h
      | some rest' =>
        rcases List.mem_cons.mp ho with h' | h'
        · exact ⟨a₀, h'⟩
        · exact ih rest' hrest h'

/-! ### C6 -/

/-- C6: in a successful discovery run, every listed cluster that passes
the inclusion filter appears as a key of the returned mapping (with some
image list, possibly empty). -/
theorem kept_cluster_is_key (ecs_client : EcsClient) (cluster_includes : List String)
    (cluster_fuel service_fuel : Nat) (clusters : List String) (c : String)
    (m : List (String × List Image))
    (hcl : get_clusters ecs_client cluster_fuel = some (.ok clusters))
    (hmem : c ∈ clusters)
    (hkeep : keep_cluster cluster_includes c = true)
    (hrun : get_images_of_clusters ecs_client cluster_includes cluster_fuel service_fuel =
      some (.ok m)) :
    ∃ imgs, (c, imgs) ∈ m := by
  simp only [get_images_of_clusters, hcl] at hrun
  set kept := clusters.filter fun cluster_arn => keep_cluster cluster_includes cluster_arn
      with hkept
  set results := kept.map fun cluster_arn =>
      get_images_of_a_cluster ecs_client cluster_arn service_fuel with hresults
  cases hseq : sequence_options results with
  | none => rw [hseq] at hrun; simp at hrun
  | some rs =>
    rw [hseq] at hrun
    simp only [Option.some.injEq] at hrun
    have hc_kept : c ∈ kept := List.mem_filter.mpr ⟨hmem, hkeep⟩
    have hcall_mem : get_images_of_a_cluster ecs_client c service_fuel ∈ results := by
      rw [hresults]
      exact List.mem_map_of_mem _ hc_kept
    obtain ⟨r, hr⟩ := sequence_options_no_none results rs hseq _ hcall_mem
    have hr_mem : r ∈ rs := sequence_options_mem_forward results rs hseq r (hr ▸ hcall_mem)
    obtain ⟨p, hp⟩ := insert_all_cluster_results_no_error rs [] m hrun r hr_mem
    subst hp
    have hfst : p.1 = c :=
      get_images_of_a_cluster_fst ecs_client c service_fuel p (by rw [hr])
    have hkey : p.1 ∈ m.map Prod.fst :=
      insert_all_cluster_results_key_of_mem rs [] m p hr_mem hrun
    rcases List.mem_map.mp hkey with ⟨q, hq, hqfst⟩
    refine ⟨q.2, ?_⟩
    rw [← hfst, ← hqfst, Prod.mk.eta]
    exact hq

/-- Witness for C6: in the sample fleet, the kept cluster `prod-a` is a
key of the result map. -/
theorem kept_cluster_is_key_witness :
    ∃ imgs, ("arn:cluster/prod-a", imgs) ∈
      [("arn:cluster/prod-a",
        [({ image_name := "app:1.2", task_definition_name := "arn:td1",
            service_name := "svc1" } : Image)])] :=
  kept_cluster_is_key sample_fleet_client ["prod"] 1 1
    ["arn:cluster/prod-a", "arn:cluster/dev-b"] "arn:cluster/prod-a"
    [("arn:cluster/prod-a",
      [({ image_name := "app:1.2", task_definition_name := "arn:td1",
          service_name := "svc1" } : Image)])]
    (by decide) (by decide) (by decide) (by decide)

/-! ### Paged control planes for the pagination claims -/

/-- Continuation token naming page `i` of a paged listing (any injective
encoding works; unary keeps decoding trivial). -/
def tok_of_index (i : Nat) : String := ⟨List.replicate i 'x'⟩

/-- Page index encoded by a continuation token; the absent token is the
first page. -/
def index_of_tok : Option String → Nat
  | none => 0
  | some s => s.data.length

theorem index_of_tok_of_index (i : Nat) :
    index_of_tok (some (tok_of_index i)) = i := by
  simp [index_of_tok, tok_of_index]

/-- A control plane whose cluster listing serves the given pages in cursor
order: page `i` carries `ps[i]` and a continuation token exactly when a
page follows. -/
def clusters_pages_client (ps : List (List String)) : EcsClient where
  describe_task_definition := fun _ => .error "unused"
  describe_services := fun _ _ => .error "unused"
  list_services := fun _ _ => .error "unused"
  list_clusters := fun tok =>
    .ok { cluster_arns := some (ps.getD (index_of_tok tok) []),
          next_token :=
            if index_of_tok tok + 1 < ps.length then
              some (tok_of_index (index_of_tok tok + 1))
            else none }

/-- A control plane whose service listing serves the given pages in cursor
order, all other calls delegated to `base`. -/
def services_pages_client (qs : List (List String)) (base : EcsClient) : EcsClient :=
  { base with
    list_services := fun _ tok =>
      .ok { service_arns := some (qs.getD (index_of_tok tok) []),
            next_token :=
              if index_of_tok tok + 1 < qs.length then
                some (tok_of_index (index_of_tok tok + 1))
              else none } }

theorem drop_flatten_getD (ps : List (List String)) (i : Nat) (hi : i < ps.length) :
    (ps.drop i).flatten = ps.getD i [] ++ (ps.drop (i + 1)).flatten := by
  rw [List.drop_eq_getElem_cons hi, List.flatten_cons,
    List.getD_eq_getElem?_getD, List.getElem?_eq_getElem hi, Option.getD_some]

theorem except_map_ok {ε α β : Type} (f : α → β) (a : α) :
    Except.map f (.ok a : Except ε α) = .ok (f a) := rfl

/-- One unfolding of the cluster-listing loop at a successful call. -/
theorem get_clusters_loop_succ (ecs_client : EcsClient) (fuel : Nat)
    (tok : Option String) (res : ListClustersResponse)
    (hcall : ecs_client.list_clusters tok = .ok res) :
    get_clusters_loop ecs_client (fuel + 1) tok =
      match res.next_token with
      | none => some (.ok (res.cluster_arns.getD []))
      | some t =>
        (get_clusters_loop ecs_client fuel (some t)).map
          (fun r => r.map fun rest => res.cluster_arns.getD [] ++ rest) := by
  simp only [get_clusters_loop, hcall]

/-- One unfolding of the service-pagination loop at a successful call. -/
theorem get_images_of_a_cluster_loop_succ (ecs_client : EcsClient)
    (cluster_name : String) (fuel : Nat) (tok : Option String)
    (res : ListServicesResponse)
    (hcall : ecs_client.list_services (some cluster_name) tok = .ok res) :
    get_images_of_a_cluster_loop ecs_client cluster_name (fuel + 1) tok =
      match list_services_page_images ecs_client cluster_name res.service_arns with
      | .error e => some (.error e)
      | .ok got_images =>
        match res.next_token with
        | none => some (.ok got_images)
        | some t =>
          (get_images_of_a_cluster_loop ecs_client cluster_name fuel (some t)).map
            (fun r => r.map fun rest => got_images ++ rest) := by
  simp only [get_images_of_a_cluster_loop, hcall]

theorem get_clusters_loop_pages (ps : List (List String)) :
    ∀ (fuel : Nat) (tok : Option String),
      ps.length ≤ index_of_tok tok + fuel → 1 ≤ fuel →
      get_clusters_loop (clusters_pages_client ps) fuel tok =
        some (.ok (ps.drop (index_of_tok tok)).flatten) := by
  intro fuel
  induction fuel with
  | zero => intro tok _ h1; omega
  | succ fuel ih =>
    intro tok hlen _
    by_cases hlt : index_of_tok tok + 1 < ps.length
    · have hcall : (clusters_pages_client ps).list_clusters tok =
          .ok { cluster_arns := some (ps.getD (index_of_tok tok) []),
                next_token := some (tok_of_index (index_of_tok tok + 1)) } := by
        simp [clusters_pages_client, if_pos hlt]
      rw [get_clusters_loop_succ _ fuel tok _ hcall]
      have hfuel1 : 1 ≤ fuel := by omega
      have hrec := ih (some (tok_of_index (index_of_tok tok + 1)))
        (by rw [index_of_tok_of_index]; omega) hfuel1
      rw [index_of_tok_of_index] at hrec
      dsimp only
      rw [hrec, Option.map_some', except_map_ok, Option.getD_some,
        ← drop_flatten_getD ps (index_of_tok tok) (by omega)]
    · have hcall : (clusters_pages_client ps).list_clusters tok =
          .ok { cluster_arns := some (ps.getD (index_of_tok tok) []),
                next_token := none } := by
        simp [clusters_pages_client, if_neg hlt]
      rw [get_clusters_loop_succ _ fuel tok _ hcall]
      dsimp only
      rw [Option.getD_some]
      by_cases hi : index_of_tok tok < ps.length
      · rw [drop_flatten_getD ps (index_of_tok tok) hi,
          List.drop_eq_nil_of_le (by omega), List.flatten_nil, List.append_nil]
      · rw [List.drop_eq_nil_of_le (by omega), List.flatten_nil,
          List.getD_eq_default _ _ (by omega)]

theorem get_images_loop_pages (qs : List (List String)) (base : EcsClient)
    (cluster : String) (imgs : Nat → List Image)
    (hpages : ∀ i, i < qs.length →
      list_services_page_images (services_pages_client qs base) cluster
        (some (qs.getD i [])) = .ok (imgs i)) :
    ∀ (fuel : Nat) (tok : Option String),
      qs.length ≤ index_of_tok tok + fuel → 1 ≤ fuel →
      get_images_of_a_cluster_loop (services_pages_client qs base) cluster fuel tok =
        some (.ok ((List.range' (index_of_tok tok)
          (qs.length - index_of_tok tok)).map imgs).flatten) := by
  intro fuel
  induction fuel with
  | zero => intro tok _ h1; omega
  | succ fuel ih =>
    intro tok hlen _
    have hbody :
        list_services_page_images (services_pages_client qs base) cluster
          (some (qs.getD (index_of_tok tok) [])) =
          .ok (if index_of_tok tok < qs.length then imgs (index_of_tok tok) else []) := by
      by_cases hi : index_of_tok tok < qs.length
      · rw [if_pos hi]; exact hpages _ hi
      · rw [if_neg hi, List.getD_eq_default _ _ (by omega)]
        rfl
    by_cases hlt : index_of_tok tok + 1 < qs.length
    · have hcall : (services_pages_client qs base).list_services (some cluster) tok =
          .ok { service_arns := some (qs.getD (index_of_tok tok) []),
                next_token := some (tok_of_index (index_of_tok tok + 1)) } := by
        simp [services_pages_client, if_pos hlt]
      rw [get_images_of_a_cluster_loop_succ _ cluster fuel tok _ hcall]
      dsimp only
      rw [hbody]
      have hfuel1 : 1 ≤ fuel := by omega
      have hrec := ih (some (tok_of_index (index_of_tok tok + 1)))
        (by rw [index_of_tok_of_index]; omega) hfuel1
      rw [index_of_tok_of_index] at hrec
      dsimp only
      rw [hrec, Option.map_some', except_map_ok,
        if_pos (by omega : index_of_tok tok < qs.length)]
      have hn : qs.length - index_of_tok tok =
          (qs.length - (index_of_tok tok + 1)) + 1 := by omega
      rw [hn, List.range'_succ, List.map_cons, List.flatten_cons]
    · have hcall : (services_pages_client qs base).list_services (some cluster) tok =
          .ok { service_arns := some (qs.getD (index_of_tok tok) []),
                next_token := none } := by
        simp [services_pages_client, if_neg hlt]
      rw [get_images_of_a_cluster_loop_succ _ cluster fuel tok _ hcall]
      dsimp only
      rw [hbody]
      dsimp only
      by_cases hi : index_of_tok tok < qs.length
      · rw [if_pos hi]
        have hn : qs.length - index_of_tok tok = 1 := by omega
        rw [hn, List.range'_succ, List.range'_zero, List.map_cons, List.map_nil,
          List.flatten_cons, List.flatten_nil, List.append_nil]
      · rw [if_neg hi]
        have hn : qs.length - index_of_tok tok = 0 := by omega
        rw [hn, List.range'_zero, List.map_nil, List.flatten_nil]

/-! ### C3 -/

/-- C3: for a finite page sequence whose every page but the last carries a
continuation cursor, the cluster lister accumulates exactly the
concatenation of the pages' identifiers in cursor order, and the
per-cluster service paginator accumulates exactly the concatenation of the
pages' resolved images in cursor order; both terminate with fuel equal to
the number of pages (one listing call for an empty sequence). -/
theorem pagination_accumulates (ps qs : List (List String)) (base : EcsClient)
    (cluster : String) (imgs : Nat → List Image)
    (hpages : ∀ i, i < qs.length →
      list_services_page_images (services_pages_client qs base) cluster
        (some (qs.getD i [])) = .ok (imgs i)) :
    get_clusters (clusters_pages_client ps) (max ps.length 1) =
        some (.ok ps.flatten) ∧
    get_images_of_a_cluster (services_pages_client qs base) cluster (max qs.length 1) =
        some (.ok (cluster, ((List.range qs.length).map imgs).flatten)) := by
  constructor
  · have h := get_clusters_loop_pages ps (max ps.length 1) none
      (by simp only [index_of_tok]; omega) (by omega)
    simpa [get_clusters, index_of_tok] using h
  · have h := get_images_loop_pages qs base cluster imgs hpages (max qs.length 1) none
      (by simp only [index_of_tok]; omega) (by omega)
    simp only [index_of_tok, Nat.sub_zero] at h
    rw [get_images_of_a_cluster, h, ← List.range_eq_range']
    rfl

/-- Witness for C3: two cluster pages and two service pages against the
sample fleet, each service page resolving to one image. -/
theorem pagination_accumulates_witness :
    get_clusters (clusters_pages_client [["c1", "c2"], ["c3"]]) 2 =
        some (.ok ["c1", "c2", "c3"]) ∧
    get_images_of_a_cluster
        (services_pages_client [["s1"], ["s2"]] sample_fleet_client) "cl1" 2 =
        some (.ok ("cl1",
          [{ image_name := "app:1.2", task_definition_name := "arn:td1",
             service_name := "svc1" },
           { image_name := "app:1.2", task_definition_name := "arn:td1",
             service_name := "svc1" }])) :=
  pagination_accumulates [["c1", "c2"], ["c3"]] [["s1"], ["s2"]]
    sample_fleet_client "cl1"
    (fun _ => [{ image_name := "app:1.2", task_definition_name := "arn:td1",
                 service_name := "svc1" }])
    (by decide)

/-! ### Error-propagation helpers -/

theorem collectResults_error {ε α : Type} (l : List (Except ε α)) (e : ε)
    (hmem : Except.error e ∈ l)
    (hothers : ∀ r ∈ l, r = .error e ∨ ∃ a, r = .ok a) :
    collectResults l = .error e := by
  induction l with
  | nil => cases hmem
  | cons x xs ih =>
    rcases hothers x (List.mem_cons_self _ _) with hx | ⟨a, hx⟩
    · rw [hx]; rfl
    · subst hx
      have hmem' : Except.error e ∈ xs := by
        rcases List.mem_cons.mp hmem with h | h
        · cases h
        · exact h
      have := ih hmem' fun r hr => hothers r (List.mem_cons_of_mem _ hr)
      simp only [collectResults, this]

theorem insert_all_cluster_results_error
    (rs : List (Except String (String × List Image))) (e : String)
    (hmem : Except.error e ∈ rs)
    (hothers : ∀ r ∈ rs, r = .error e ∨ ∃ p, r = .ok p) :
    ∀ acc, insert_all_cluster_results rs acc = .error e := by
  induction rs with
  | nil => cases hmem
  | cons x xs ih =>
    intro acc
    rcases hothers x (List.mem_cons_self _ _) with hx | ⟨p, hx⟩
    · rw [hx]; rfl
    · subst hx
      have hmem' : Except.error e ∈ xs := by
        rcases List.mem_cons.mp hmem with h | h
        · cases h
        · exact h
      simp only [insert_all_cluster_results]
      exact ih hmem' (fun r hr => hothers r (List.mem_cons_of_mem _ hr)) _

theorem sequence_options_total {α : Type} (l : List (Option α))
    (h : ∀ o ∈ l, o ≠ none) : ∃ l', sequence_options l = some l' := by
  induction l with
  | nil => exact ⟨[], rfl⟩
  | cons o os ih =>
    obtain ⟨l'', hl''⟩ := ih fun o' ho' => h o' (List.mem_cons_of_mem _ ho')
    cases o with
    | none => exact absurd rfl (h none (List.mem_cons_self _ _))
    | some a =>
      exact ⟨a :: l'', by simp [sequence_options, hl'']⟩

/-! ### C5 -/

/-- C5: a single failing remote call fails its enclosing aggregation and
ultimately the whole discovery, with no partial result: (a) a failing
task-definition describe (the only failing pair) fails the batch with that
error; (b) a failing service describe fails the batch with that error;
(c) a failing page fetch, and (d) a failing page resolution, fail the
cluster pagination with that error; (e) a failing cluster listing fails
the discovery with that error; (f) a failing cluster-listing page fails
the listing with that error; (g) a failing kept cluster (the only failing
one) fails the discovery with that error. -/
theorem fail_fast_propagation (ecs_client : EcsClient) :
    (∀ (service_arns : List String) (cluster_name : String)
        (res : DescribeServicesResponse) (services : List ContainerService)
        (p : String × String) (e : String),
      ecs_client.describe_services (some cluster_name) service_arns = .ok res →
      res.services = some services →
      p ∈ formed_pairs services →
      get_image_of_task_definition ecs_client p.1 p.2 = .error e →
      (∀ q ∈ formed_pairs services, q ≠ p →
        ∃ v, get_image_of_task_definition ecs_client q.1 q.2 = .ok v) →
      get_images_of_services ecs_client service_arns cluster_name = .error e) ∧
    (∀ (service_arns : List String) (cluster_name e : String),
      ecs_client.describe_services (some cluster_name) service_arns = .error e →
      get_images_of_services ecs_client service_arns cluster_name = .error e) ∧
    (∀ (cluster_name : String) (fuel : Nat) (tok : Option String) (e : String),
      ecs_client.list_services (some cluster_name) tok = .error e →
      get_images_of_a_cluster_loop ecs_client cluster_name (fuel + 1) tok =
        some (.error e)) ∧
    (∀ (cluster_name : String) (fuel : Nat) (tok : Option String)
        (res : ListServicesResponse) (e : String),
      ecs_client.list_services (some cluster_name) tok = .ok res →
      list_services_page_images ecs_client cluster_name res.service_arns = .error e →
      get_images_of_a_cluster_loop ecs_client cluster_name (fuel + 1) tok =
        some (.error e)) ∧
    (∀ (cluster_includes : List String) (cluster_fuel service_fuel : Nat) (e : String),
      get_clusters ecs_client cluster_fuel = some (.error e) →
      get_images_of_clusters ecs_client cluster_includes cluster_fuel service_fuel =
        some (.error e)) ∧
    (∀ (fuel : Nat) (tok : Option String) (e : String),
      ecs_client.list_clusters tok = .error e →
      get_clusters_loop ecs_client (fuel + 1) tok = some (.error e)) ∧
    (∀ (cluster_includes : List String) (cluster_fuel service_fuel : Nat)
        (clusters : List String) (c e : String),
      get_clusters ecs_client cluster_fuel = some (.ok clusters) →
      c ∈ clusters.filter (fun cluster_arn => keep_cluster cluster_includes cluster_arn) →
      get_images_of_a_cluster ecs_client c service_fuel = some (.error e) →
      (∀ c' ∈ clusters.filter
          (fun cluster_arn => keep_cluster cluster_includes cluster_arn), c' ≠ c →
        ∃ v, get_images_of_a_cluster ecs_client c' service_fuel = some (.ok v)) →
      get_images_of_clusters ecs_client cluster_includes cluster_fuel service_fuel =
        some (.error e)) := by
  refine ⟨?_, ?_, ?_, ?_, ?_, ?_, ?_⟩
  · intro service_arns cluster_name res services p e hcall hsvcs hp herr hrest
    have hlist :
        collectResults ((formed_pairs services).map fun q =>
          get_image_of_task_definition ecs_client q.1 q.2) = .error e := by
      apply collectResults_error
      · exact herr ▸ List.mem_map_of_mem _ hp
      · intro r hr
        rcases List.mem_map.mp hr with ⟨q, hq, hqr⟩
        by_cases hqp : q = p
        · subst hqp
          exact Or.inl (by rw [← hqr, herr])
        · rcases hrest q hq hqp with ⟨v, hv⟩
          exact Or.inr ⟨v, by rw [← hqr, hv]⟩
    simp only [get_images_of_services, hcall, hsvcs, hlist]
  · intro service_arns cluster_name e hcall
    simp [get_images_of_services, hcall]
  · intro cluster_name fuel tok e hcall
    simp only [get_images_of_a_cluster_loop, hcall]
  · intro cluster_name fuel tok res e hcall herr
    rw [get_images_of_a_cluster_loop_succ _ _ fuel tok _ hcall, herr]
  · intro cluster_includes cluster_fuel service_fuel e hcl
    simp [get_images_of_clusters, hcl]
  · intro fuel tok e hcall
    simp only [get_clusters_loop, hcall]
  · intro cluster_includes cluster_fuel service_fuel clusters c e hcl hc herr hrest
    simp only [get_images_of_clusters, hcl]
    set kept := clusters.filter
        (fun cluster_arn => keep_cluster cluster_includes cluster_arn) with hkept
    set results := kept.map fun cluster_arn =>
        get_images_of_a_cluster ecs_client cluster_arn service_fuel with hresults
    have hno_none : ∀ o ∈ results, o ≠ none := by
      intro o ho
      rcases List.mem_map.mp ho with ⟨c', hc', hoc⟩
      by_cases hcc : c' = c
      · subst hcc; rw [← hoc, herr]; simp
      · rcases hrest c' hc' hcc with ⟨v, hv⟩
        rw [← hoc, hv]; simp
    obtain ⟨rs, hrs⟩ := sequence_options_total results hno_none
    rw [hrs]
    have hmem_err : Except.error e ∈ rs := by
      apply sequence_options_mem_forward results rs hrs
      rw [← herr]
      exact List.mem_map_of_mem _ hc
    have hothers : ∀ r ∈ rs, r = .error e ∨ ∃ p, r = .ok p := by
      intro r hr
      have hsome := sequence_options_mem results rs hrs r hr
      rcases List.mem_map.mp hsome with ⟨c', hc', hoc⟩
      by_cases hcc : c' = c
      · subst hcc
        rw [herr] at hoc
        exact Or.inl (by injection hoc with h; exact h.symm)
      · rcases hrest c' hc' hcc with ⟨v, hv⟩
        rw [hv] at hoc
        exact Or.inr ⟨v, by injection hoc with h; exact h.symm⟩
    dsimp only
    rw [insert_all_cluster_results_error rs e hmem_err hothers []]

/-- A client exhibiting one failing leaf call per failure mode: the
task-definition describe fails for `td-err`, the service describe fails
for cluster `cl-err`, the service listing fails for cluster `cl-page-err`,
and the second cluster-listing page fails. -/
def failing_client : EcsClient where
  describe_task_definition := fun td =>
    if td = "td-err" then .error "td boom"
    else .ok { task_definition := none }
  describe_services := fun cluster _ =>
    if cluster = some "cl-err" then .error "ds boom"
    else .ok { services := some
                [{ service_name := some "s1", task_definition := some "td-err" }] }
  list_services := fun cluster _ =>
    if cluster = some "cl-page-err" then .error "ls boom"
    else .ok { service_arns := some ["s1"], next_token := none }
  list_clusters := fun tok =>
    match tok with
    | none => .ok { cluster_arns := some ["cl1"], next_token := some "t1" }
    | some _ => .error "lc boom"

/-- A client whose only cluster paginates fine but whose task-definition
describe always fails, so that cluster's resolution fails. -/
def failing_cluster_client : EcsClient where
  describe_task_definition := fun _ => .error "td boom"
  describe_services := fun _ _ =>
    .ok { services := some
            [{ service_name := some "s1", task_definition := some "td1" }] }
  list_services := fun _ _ =>
    .ok { service_arns := some ["s1"], next_token := none }
  list_clusters := fun _ =>
    .ok { cluster_arns := some ["cl1"], next_token := none }

/-- Witness for C5: each failure mode applied at a concrete input against
`failing_client` (and `failing_cluster_client` for the kept-cluster
case). -/
theorem fail_fast_propagation_witness :
    (get_images_of_services failing_client ["s1"] "cl-ok" = .error "td boom") ∧
    (get_images_of_services failing_client ["s1"] "cl-err" = .error "ds boom") ∧
    (get_images_of_a_cluster_loop failing_client "cl-page-err" 1 none =
      some (.error "ls boom")) ∧
    (get_images_of_a_cluster_loop failing_client "cl-ok" 1 none =
      some (.error "td boom")) ∧
    (get_images_of_clusters failing_client [] 2 1 = some (.error "lc boom")) ∧
    (get_clusters_loop failing_client 1 (some "t1") = some (.error "lc boom")) ∧
    (get_images_of_clusters failing_cluster_client [] 1 1 =
      some (.error "td boom")) :=
  ⟨(fail_fast_propagation failing_client).1 ["s1"] "cl-ok"
      { services := some
          [{ service_name := some "s1", task_definition := some "td-err" }] }
      [{ service_name := some "s1", task_definition := some "td-err" }]
      ("td-err", "s1") "td boom" (by decide) rfl (by decide) (by decide)
      (by
        intro q hq hqp
        have hl : formed_pairs
            [{ service_name := some "s1", task_definition := some "td-err" }] =
            [("td-err", "s1")] := rfl
        rw [hl] at hq
        simp only [List.mem_singleton] at hq
        exact absurd hq hqp),
   (fail_fast_propagation failing_client).2.1 ["s1"] "cl-err" "ds boom" (by decide),
   (fail_fast_propagation failing_client).2.2.1 "cl-page-err" 0 none "ls boom"
     (by decide),
   (fail_fast_propagation failing_client).2.2.2.1 "cl-ok" 0 none
     { service_arns := some ["s1"], next_token := none } "td boom"
     (by decide) (by decide),
   (fail_fast_propagation failing_client).2.2.2.2.1 [] 2 1 "lc boom" (by decide),
   (fail_fast_propagation failing_client).2.2.2.2.2.1 0 (some "t1") "lc boom"
     (by decide),
   (fail_fast_propagation failing_cluster_client).2.2.2.2.2.2 [] 1 1 ["cl1"]
     "cl1" "td boom" (by decide) (by decide) (by decide)
     (by
       intro c' hc' hne
       have : c' = "cl1" ∧ keep_cluster [] c' = true := by simpa using hc'
       exact absurd this.1 hne)⟩

/-! ### Cursor chains for the termination claim -/

/-- The token the cluster-listing loop holds after `k` iterations against
a control plane answering `resf`: the loop starts with the absent token
and each iteration continues with the returned `next_token`. -/
def cluster_token_chain (resf : Option String → ListClustersResponse) : Nat → Option String
  | 0 => none
  | k + 1 => (resf (cluster_token_chain resf k)).next_token

/-- The token the service-pagination loop holds after `k` iterations. -/
def service_token_chain (sresf : Option String → ListServicesResponse) : Nat → Option String
  | 0 => none
  | k + 1 => (sresf (service_token_chain sresf k)).next_token

theorem get_clusters_loop_terminates_of_none (ecs_client : EcsClient)
    (resf : Option String → ListClustersResponse)
    (hok : ∀ tok, ecs_client.list_clusters tok = .ok (resf tok)) :
    ∀ (k j : Nat), (resf (cluster_token_chain resf (j + k))).next_token = none →
      ∃ fuel, get_clusters_loop ecs_client fuel (cluster_token_chain resf j) ≠ none := by
  intro k
  induction k with
  | zero =>
    intro j hnone
    refine ⟨1, ?_⟩
    rw [get_clusters_loop_succ ecs_client 0 _ _ (hok _)]
    rw [Nat.add_zero] at hnone
    rw [hnone]
    simp
  | succ k ih =>
    intro j hnone
    cases hn : (resf (cluster_token_chain resf j)).next_token with
    | none =>
      refine ⟨1, ?_⟩
      rw [get_clusters_loop_succ ecs_client 0 _ _ (hok _), hn]
      simp
    | some t =>
      have hj1 : cluster_token_chain resf (j + 1) = some t := by
        simp [cluster_token_chain, hn]
      obtain ⟨fuel, hfuel⟩ := ih (j + 1)
        (by rw [(by omega : j + 1 + k = j + (k + 1))]; exact hnone)
      refine ⟨fuel + 1, ?_⟩
      rw [get_clusters_loop_succ ecs_client fuel _ _ (hok _), hn]
      dsimp only
      rw [← hj1]
      intro hcontra
      exact hfuel (Option.map_eq_none'.mp hcontra)

theorem get_clusters_loop_diverges (ecs_client : EcsClient)
    (resf : Option String → ListClustersResponse)
    (hok : ∀ tok, ecs_client.list_clusters tok = .ok (resf tok))
    (hcursor : ∀ k, (resf (cluster_token_chain resf k)).next_token ≠ none) :
    ∀ (fuel j : Nat), get_clusters_loop ecs_client fuel (cluster_token_chain resf j) = none := by
  intro fuel
  induction fuel with
  | zero => intro j; rfl
  | succ fuel ih =>
    intro j
    rw [get_clusters_loop_succ ecs_client fuel _ _ (hok _)]
    cases hn : (resf (cluster_token_chain resf j)).next_token with
    | none => exact absurd hn (hcursor j)
    | some t =>
      have hj1 : cluster_token_chain resf (j + 1) = some t := by
        simp [cluster_token_chain, hn]
      dsimp only
      rw [← hj1, ih (j + 1)]
      rfl

theorem get_images_loop_terminates_of_none (ecs_client : EcsClient)
    (cluster : String) (sresf : Option String → ListServicesResponse)
    (imgsf : Option String → List Image)
    (hok : ∀ tok, ecs_client.list_services (some cluster) tok = .ok (sresf tok))
    (hbody : ∀ tok, list_services_page_images ecs_client cluster
      (sresf tok).service_arns = .ok (imgsf tok)) :
    ∀ (k j : Nat), (sresf (service_token_chain sresf (j + k))).next_token = none →
      ∃ fuel, get_images_of_a_cluster_loop ecs_client cluster fuel
        (service_token_chain sresf j) ≠ none := by
  intro k
  induction k with
  | zero =>
    intro j hnone
    refine ⟨1, ?_⟩
    rw [get_images_of_a_cluster_loop_succ ecs_client cluster 0 _ _ (hok _), hbody]
    rw [Nat.add_zero] at hnone
    rw [hnone]
    simp
  | succ k ih =>
    intro j hnone
    cases hn : (sresf (service_token_chain sresf j)).next_token with
    | none =>
      refine ⟨1, ?_⟩
      rw [get_images_of_a_cluster_loop_succ ecs_client cluster 0 _ _ (hok _), hbody, hn]
      simp
    | some t =>
      have hj1 : service_token_chain sresf (j + 1) = some t := by
        simp [service_token_chain, hn]
      obtain ⟨fuel, hfuel⟩ := ih (j + 1)
        (by rw [(by omega : j + 1 + k = j + (k + 1))]; exact hnone)
      refine ⟨fuel + 1, ?_⟩
      rw [get_images_of_a_cluster_loop_succ ecs_client cluster fuel _ _ (hok _), hbody, hn]
      dsimp only
      rw [← hj1]
      intro hcontra
      exact hfuel (Option.map_eq_none'.mp hcontra)

theorem get_images_loop_diverges (ecs_client : EcsClient)
    (cluster : String) (sresf : Option String → ListServicesResponse)
    (imgsf : Option String → List Image)
    (hok : ∀ tok, ecs_client.list_services (some cluster) tok = .ok (sresf tok))
    (hbody : ∀ tok, list_services_page_images ecs_client cluster
      (sresf tok).service_arns = .ok (imgsf tok))
    (hcursor : ∀ k, (sresf (service_token_chain sresf k)).next_token ≠ none) :
    ∀ (fuel j : Nat), get_images_of_a_cluster_loop ecs_client cluster fuel
      (service_token_chain sresf j) = none := by
  intro fuel
  induction fuel with
  | zero => intro j; rfl
  | succ fuel ih =>
    intro j
    rw [get_images_of_a_cluster_loop_succ ecs_client cluster fuel _ _ (hok _), hbody]
    cases hn : (sresf (service_token_chain sresf j)).next_token with
    | none => exact absurd hn (hcursor j)
    | some t =>
      have hj1 : service_token_chain sresf (j + 1) = some t := by
        simp [service_token_chain, hn]
      dsimp only
      rw [← hj1, ih (j + 1)]
      rfl

/-! ### C9 -/

/-- C9: against a control plane whose listing calls always succeed (and,
for the service loop, whose pages always resolve), each pagination loop
terminates for some fuel exactly when the cursor chain eventually returns
an absent `next_token`; a control plane that always returns a cursor makes
the loop exhaust every fuel bound — there is no internal iteration
guard. -/
theorem pagination_termination (ecs_client : EcsClient)
    (resf : Option String → ListClustersResponse)
    (sresf : Option String → ListServicesResponse)
    (cluster : String) (imgsf : Option String → List Image)
    (hok : ∀ tok, ecs_client.list_clusters tok = .ok (resf tok))
    (hsok : ∀ tok, ecs_client.list_services (some cluster) tok = .ok (sresf tok))
    (hbody : ∀ tok, list_services_page_images ecs_client cluster
      (sresf tok).service_arns = .ok (imgsf tok)) :
    ((∃ fuel, get_clusters ecs_client fuel ≠ none) ↔
      ∃ k, (resf (cluster_token_chain resf k)).next_token = none) ∧
    ((∃ fuel, get_images_of_a_cluster ecs_client cluster fuel ≠ none) ↔
      ∃ k, (sresf (service_token_chain sresf k)).next_token = none) := by
  constructor
  · constructor
    · intro hterm
      by_contra hnever
      push_neg at hnever
      rcases hterm with ⟨fuel, hfuel⟩
      exact hfuel (get_clusters_loop_diverges ecs_client resf hok hnever fuel 0)
    · rintro ⟨k, hk⟩
      obtain ⟨fuel, hfuel⟩ :=
        get_clusters_loop_terminates_of_none ecs_client resf hok k 0
          (by rw [Nat.zero_add]; exact hk)
      exact ⟨fuel, hfuel⟩
  · constructor
    · intro hterm
      by_contra hnever
      push_neg at hnever
      rcases hterm with ⟨fuel, hfuel⟩
      apply hfuel
      have hdiv := get_images_loop_diverges ecs_client cluster sresf imgsf hsok hbody
        hnever fuel 0
      simp only [service_token_chain] at hdiv
      unfold get_images_of_a_cluster
      rw [hdiv]
      rfl
    · rintro ⟨k, hk⟩
      obtain ⟨fuel, hfuel⟩ :=
        get_images_loop_terminates_of_none ecs_client cluster sresf imgsf hsok hbody k 0
          (by rw [Nat.zero_add]; exact hk)
      refine ⟨fuel, ?_⟩
      unfold get_images_of_a_cluster
      intro hcontra
      exact hfuel (Option.map_eq_none'.mp hcontra)

/-- The single cluster-listing page of `sample_fleet_client`. -/
def one_page_clusters_res : ListClustersResponse :=
  { cluster_arns := some ["arn:cluster/prod-a", "arn:cluster/dev-b"],
    next_token := none }

/-- The single service-listing page of `sample_fleet_client`. -/
def one_page_services_res : ListServicesResponse :=
  { service_arns := some ["svc1"], next_token := none }

/-- Witness for C9 against the sample fleet, whose single listing page
carries no continuation token: both loops terminate and the chain
condition holds at `k = 0`. -/
theorem pagination_termination_witness :
    ((∃ fuel, get_clusters sample_fleet_client fuel ≠ none) ↔
      ∃ k, ((fun _ => one_page_clusters_res)
          (cluster_token_chain (fun _ => one_page_clusters_res) k)).next_token = none) ∧
    ((∃ fuel, get_images_of_a_cluster sample_fleet_client "cl1" fuel ≠ none) ↔
      ∃ k, ((fun _ => one_page_services_res)
          (service_token_chain (fun _ => one_page_services_res) k)).next_token = none) :=
  pagination_termination sample_fleet_client (fun _ => one_page_clusters_res)
    (fun _ => one_page_services_res) "cl1"
    (fun _ => [{ image_name := "app:1.2", task_definition_name := "arn:td1",
                 service_name := "svc1" }])
    (fun _ => rfl) (fun _ => rfl) (fun _ => rfl)

/-! ### Counting helpers for the no-duplicate claim -/

/-- A resolved image carries the service name it was resolved for. -/
theorem resolve_service_name (ecs_client : EcsClient) (td sn : String) (img : Image)
    (h : get_image_of_task_definition ecs_client td sn = .ok (some img)) :
    img.service_name = sn := by
  unfold get_image_of_task_definition at h
  cases hcall : ecs_client.describe_task_definition td with
  | error e => rw [hcall] at h; simp at h
  | ok res =>
    rw [hcall] at h
    simp only [Except.ok.injEq] at h
    cases hb : res.task_definition with
    | none => rw [hb] at h; simp at h
    | some tdef =>
      rw [hb] at h
      simp only [Option.some_bind] at h
      rcases Option.bind_eq_some.mp h with ⟨p, _, hp2⟩
      rcases Option.map_eq_some'.mp hp2 with ⟨i, _, himg⟩
      rw [← himg]

theorem countP_filterMap_le {α β : Type} (f : α → Option β) (P : β → Bool)
    (Q : α → Bool) (l : List α)
    (h : ∀ a ∈ l, ∀ b, f a = some b → P b = true → Q a = true) :
    (l.filterMap f).countP P ≤ l.countP Q := by
  induction l with
  | nil => simp
  | cons a l ih =>
    have ih' := ih fun a' ha' => h a' (List.mem_cons_of_mem _ ha')
    cases hfa : f a with
    | none =>
      rw [List.filterMap_cons_none hfa, List.countP_cons]
      exact le_trans ih' (Nat.le_add_right _ _)
    | some b =>
      rw [List.filterMap_cons_some hfa, List.countP_cons, List.countP_cons]
      by_cases hP : P b = true
      · rw [if_pos hP, if_pos (h a (List.mem_cons_self _ _) b hfa hP)]
        omega
      · rw [if_neg hP, Nat.add_zero]
        exact le_trans ih' (Nat.le_add_right _ _)

/-- Evaluation of `get_images_of_services` when every formed pair resolves
successfully: the result is the `filterMap` of the resolution function
over the formed pairs. -/
theorem get_images_of_services_eval (ecs_client : EcsClient)
    (service_arns : List String) (cluster_name : String)
    (res : DescribeServicesResponse) (services : List ContainerService)
    (f : String × String → Option Image)
    (hcall : ecs_client.describe_services (some cluster_name) service_arns = .ok res)
    (hsvcs : res.services = some services)
    (hres : ∀ p ∈ formed_pairs services,
      get_image_of_task_definition ecs_client p.1 p.2 = .ok (f p)) :
    get_images_of_services ecs_client service_arns cluster_name =
      .ok ((formed_pairs services).filterMap f) := by
  have hcollect :
      collectResults ((formed_pairs services).map fun p =>
          get_image_of_task_definition ecs_client p.1 p.2) =
        .ok ((formed_pairs services).map f) :=
    collectResults_map_ok (formed_pairs services) _ f hres
  simp only [get_images_of_services, hcall, hsvcs, hcollect, List.filterMap_map,
    Function.comp_def, id]

/-- Batch-level count bound: the images returned for one batch contain at
most as many entries for a given service name as the batch's describe
response contains services carrying that name. -/
theorem images_countP_le (ecs_client : EcsClient) (service_arns : List String)
    (cluster_name : String) (res : DescribeServicesResponse)
    (services : List ContainerService) (f : String × String → Option Image)
    (sn : String) (images : List Image)
    (hcall : ecs_client.describe_services (some cluster_name) service_arns = .ok res)
    (hsvcs : res.services = some services)
    (hres : ∀ p ∈ formed_pairs services,
      get_image_of_task_definition ecs_client p.1 p.2 = .ok (f p))
    (himages : get_images_of_services ecs_client service_arns cluster_name = .ok images) :
    images.countP (fun img => decide (img.service_name = sn)) ≤
      services.countP (fun s => decide (s.service_name = some sn)) := by
  have heval := get_images_of_services_eval ecs_client service_arns cluster_name
    res services f hcall hsvcs hres
  rw [himages] at heval
  simp only [Except.ok.injEq] at heval
  subst heval
  have h1 : ((formed_pairs services).filterMap f).countP
        (fun img => decide (img.service_name = sn)) ≤
      (formed_pairs services).countP (fun p => decide (p.2 = sn)) := by
    apply countP_filterMap_le
    intro p hp img hf hP
    have hok : get_image_of_task_definition ecs_client p.1 p.2 = .ok (some img) := by
      rw [hres p hp, hf]
    have hname := resolve_service_name ecs_client p.1 p.2 img hok
    have : img.service_name = sn := of_decide_eq_true hP
    simp [← hname, this]
  have h2 : (formed_pairs services).countP (fun p => decide (p.2 = sn)) ≤
      services.countP (fun s => decide (s.service_name = some sn)) := by
    unfold formed_pairs
    apply countP_filterMap_le
    intro s _ p hg hP
    cases htd : s.task_definition with
    | none => simp [htd] at hg
    | some td =>
      cases hsn : s.service_name with
      | none => simp [htd, hsn] at hg
      | some x =>
        simp only [htd, hsn, Option.some_bind, Option.map_some',
          Option.some.injEq] at hg
        have hx : p.2 = sn := of_decide_eq_true hP
        rw [← hg] at hx
        simp only at hx
        simp [hsn, hx]
  exact le_trans h1 h2

/-! ### C8 -/

/-- C8: no image is produced twice for the same service.  Batch level:
each service in a describe response forms at most one pair, each pair is
resolved exactly once and yields at most one image carrying that service
name, so the returned images contain at most as many entries for a service
name as the response contains services with that name.  Cluster level:
when the pagination pages' describe responses deliver a service name at
most once across all pages, the cluster's accumulated image list contains
at most one image with that service name. -/
theorem no_duplicate_image_per_service (sn : String) :
    (∀ (ecs_client : EcsClient) (service_arns : List String) (cluster_name : String)
        (res : DescribeServicesResponse) (services : List ContainerService)
        (f : String × String → Option Image) (images : List Image),
      ecs_client.describe_services (some cluster_name) service_arns = .ok res →
      res.services = some services →
      (∀ p ∈ formed_pairs services,
        get_image_of_task_definition ecs_client p.1 p.2 = .ok (f p)) →
      get_images_of_services ecs_client service_arns cluster_name = .ok images →
      images.countP (fun img => decide (img.service_name = sn)) ≤
        services.countP (fun s => decide (s.service_name = some sn))) ∧
    (∀ (qs : List (List String)) (base : EcsClient) (cluster : String)
        (svcsOf : Nat → List ContainerService) (f : String × String → Option Image)
        (result : String × List Image),
      (∀ i, i < qs.length → qs.getD i [] ≠ []) →
      (∀ i, i < qs.length →
        (services_pages_client qs base).describe_services (some cluster)
          (qs.getD i []) = .ok { services := some (svcsOf i) }) →
      (∀ i, i < qs.length → ∀ p ∈ formed_pairs (svcsOf i),
        get_image_of_task_definition (services_pages_client qs base) p.1 p.2 =
          .ok (f p)) →
      (((List.range qs.length).map svcsOf).flatten).countP
          (fun s => decide (s.service_name = some sn)) ≤ 1 →
      get_images_of_a_cluster (services_pages_client qs base) cluster
          (max qs.length 1) = some (.ok result) →
      result.2.countP (fun img => decide (img.service_name = sn)) ≤ 1) := by
  constructor
  · intro ecs_client service_arns cluster_name res services f images
      hcall hsvcs hres himages
    exact images_countP_le ecs_client service_arns cluster_name res services f sn
      images hcall hsvcs hres himages
  · intro qs base cluster svcsOf f result hne hds hres honce hrun
    have hpages : ∀ i, i < qs.length →
        list_services_page_images (services_pages_client qs base) cluster
          (some (qs.getD i [])) =
          .ok ((formed_pairs (svcsOf i)).filterMap f) := by
      intro i hi
      have hemp : (qs.getD i []).isEmpty = false := by
        cases hq : (qs.getD i []) with
        | nil => exact absurd hq (hne i hi)
        | cons a l => rfl
      unfold list_services_page_images
      dsimp only
      rw [hemp]
      simp only [Bool.false_eq_true, if_false]
      exact get_images_of_services_eval (services_pages_client qs base) (qs.getD i [])
        cluster _ (svcsOf i) f (hds i hi) rfl (hres i hi)
    have hloop := get_images_loop_pages qs base cluster
      (fun i => (formed_pairs (svcsOf i)).filterMap f) hpages (max qs.length 1) none
      (by simp only [index_of_tok]; omega) (by omega)
    simp only [index_of_tok, Nat.sub_zero] at hloop
    have hval : get_images_of_a_cluster (services_pages_client qs base) cluster
        (max qs.length 1) =
        some (.ok (cluster, ((List.range qs.length).map
          fun i => (formed_pairs (svcsOf i)).filterMap f).flatten)) := by
      rw [get_images_of_a_cluster, hloop, ← List.range_eq_range']
      rfl
    rw [hval] at hrun
    simp only [Option.some.injEq, Except.ok.injEq] at hrun
    subst hrun
    dsimp only
    rw [List.countP_flatten, List.map_map]
    have hstep : ((List.range qs.length).map
          ((List.countP fun img => decide (img.service_name = sn)) ∘
            fun i => (formed_pairs (svcsOf i)).filterMap f)).sum ≤
        ((List.range qs.length).map
          fun i => (svcsOf i).countP fun s => decide (s.service_name = some sn)).sum := by
      apply List.sum_le_sum
      intro i hi
      have hi' : i < qs.length := List.mem_range.mp hi
      exact images_countP_le (services_pages_client qs base) (qs.getD i []) cluster
        _ (svcsOf i) f sn _ (hds i hi') rfl (hres i hi')
        (get_images_of_services_eval (services_pages_client qs base) (qs.getD i [])
          cluster _ (svcsOf i) f (hds i hi') rfl (hres i hi'))
    refine le_trans hstep ?_
    rw [List.countP_flatten, List.map_map] at honce
    exact honce

/-- A base client for the C8 cluster-level witness: each service-listing
page names a distinct service, both resolving to the same task
definition. -/
def sample_two_page_client : EcsClient where
  describe_task_definition := fun _ =>
    .ok { task_definition := some
            ({ task_definition_arn := some "arn:td1",
               container_definitions := some [{ image := some "app:1.2" }] }) }
  describe_services := fun _ arns =>
    if arns = ["s1"] then
      .ok { services := some
              [{ service_name := some "svc1", task_definition := some "td1" }] }
    else
      .ok { services := some
              [{ service_name := some "svc2", task_definition := some "td1" }] }
  list_services := fun _ _ => .error "unused"
  list_clusters := fun _ => .error "unused"

/-- Witness for C8: a concrete batch keeps one image for `svc1`, and a
two-page cluster delivering `svc1` on exactly one page keeps one image for
it in the accumulated list. -/
theorem no_duplicate_image_per_service_witness :
    (List.countP (fun img => decide (img.service_name = "svc1"))
        [({ image_name := "app:1.2", task_definition_name := "arn:td1",
            service_name := "svc1" } : Image)] ≤
      List.countP (fun s => decide (s.service_name = some "svc1"))
        [({ service_name := some "svc1", task_definition := some "td1" } :
            ContainerService),
         { service_name := none, task_definition := some "td-skip" },
         { service_name := some "svc2", task_definition := some "td2" }]) ∧
    List.countP (fun img => decide (img.service_name = "svc1"))
        (("cl1",
          [({ image_name := "app:1.2", task_definition_name := "arn:td1",
              service_name := "svc1" } : Image),
           { image_name := "app:1.2", task_definition_name := "arn:td1",
             service_name := "svc2" }]) : String × List Image).2 ≤ 1 := by
  constructor
  · exact (no_duplicate_image_per_service "svc1").1 sample_batch_client
      ["svc1", "svcX", "svc2"] "cl1"
      { services := some
          [{ service_name := some "svc1", task_definition := some "td1" },
           { service_name := none, task_definition := some "td-skip" },
           { service_name := some "svc2", task_definition := some "td2" }] }
      [{ service_name := some "svc1", task_definition := some "td1" },
       { service_name := none, task_definition := some "td-skip" },
       { service_name := some "svc2", task_definition := some "td2" }]
      (fun p =>
        if p.1 = "td1" then
          some { image_name := "app:1.2", task_definition_name := "arn:td1",
                 service_name := p.2 }
        else none)
      [{ image_name := "app:1.2", task_definition_name := "arn:td1",
         service_name := "svc1" }]
      (by decide) rfl
      (by
        intro p hp
        have hl : formed_pairs
            [{ service_name := some "svc1", task_definition := some "td1" },
             { service_name := none, task_definition := some "td-skip" },
             { service_name := some "svc2", task_definition := some "td2" }] =
            [("td1", "svc1"), ("td2", "svc2")] := rfl
        rw [hl] at hp
        simp only [List.mem_cons, List.not_mem_nil, or_false] at hp
        rcases hp with h | h <;> subst h <;> rfl)
      (by decide)
  · exact (no_duplicate_image_per_service "svc1").2 [["s1"], ["s2"]]
      sample_two_page_client "cl1"
      (fun i => if i = 0 then
          [{ service_name := some "svc1", task_definition := some "td1" }]
        else
          [{ service_name := some "svc2", task_definition := some "td1" }])
      (fun p => some { image_name := "app:1.2", task_definition_name := "arn:td1",
                       service_name := p.2 })
      ("cl1",
        [{ image_name := "app:1.2", task_definition_name := "arn:td1",
           service_name := "svc1" },
         { image_name := "app:1.2", task_definition_name := "arn:td1",
           service_name := "svc2" }])
      (by decide) (by decide) (by decide) (by decide) (by decide)

end EcsSpec
